import Mathlib

/-!
Verification of the War-at-Sea deckbuilder core (src/src/Deckbuilder.jsx).

Shallow embedding of the pure core: the wait-time parser, the cooldown
countdown, the catalog filter pipeline, the deck mutators, the totals
aggregator, the save-time validation, and the greedy recommender.
Unit ids are modelled as strings (JS object keys), decks as ordered
association lists mirroring JS object insertion-order semantics, machine
numbers as `Nat`/`Int`/`ℚ`.
-/

/-- One `units` row joined with its stats (lines 186-189).  `points` is the
integer cost; every use site coalesces a missing value to `0`
(`u.points||0`), so it is modelled as a plain `Nat`.  `utype` is the
source's `type` field (a Lean keyword).  `stats r` is
`Number(st[`effective_gunnerytotal_${r}`] || 0)`: the per-range effective
damage with a missing entry already coalesced to `0`, modelled as an exact
rational. -/
structure GameUnit where
  id : String
  name : String
  nation : String
  utype : String
  points : Nat
  abilities : String
  stats : Fin 4 → ℚ

/-- One `user_ownership` row: `{owned, copies}` (line 202).  `copies` may be
absent/null in a present row, hence `Option Nat`. -/
structure OwnRec where
  owned : Bool
  copies : Option Nat
deriving DecidableEq

/-- The `ownership` map `unit_id -> {owned, copies}` (line 133). -/
abbrev Own : Type := String → Option OwnRec

/-- The `deck` object `unit_id -> count` (line 143), as the ordered list of
its entries (JS string-keyed objects enumerate in insertion order). -/
abbrev Deck : Type := List (String × Nat)

/-- Lookup `prev[u.id] || 0`: value of the first entry with the given key, `0` when
absent. -/
def deckGet : Deck → String → Nat
  | [], _ => 0
  | (k, v) :: rest, i => if k = i then v else deckGet rest i

/-- Update `{ ...prev, [u.id]: n }`: replace the entry in place when the key is
present, append it otherwise. -/
def deckSet : Deck → String → Nat → Deck
  | [], i, n => [(i, n)]
  | (k, v) :: rest, i, n => if k = i then (i, n) :: rest else (k, v) :: deckSet rest i n

/-- Deletion `const { [u.id]:_, ...rest } = prev`: drop the entry with the given key. -/
def deckDel : Deck → String → Deck
  | [], _ => []
  | (k, v) :: rest, i => if k = i then rest else (k, v) :: deckDel rest i

/-- The cap `ownership[u.id]?.copies ?? 99` — the per-unit copy cap used verbatim by
`addToDeck` (line 294), by the add button's `disabled` gate (line 445) and
by `recommend` (line 370). -/
def maxCopies (own : Own) (i : String) : Nat :=
  match own i with
  | some r => r.copies.getD 99
  | none => 99

/-- Source `addToDeck` (lines 293-301): reject when the current count has reached
the copy cap, otherwise increment. -/
def addToDeck (own : Own) (u : GameUnit) (d : Deck) : Deck :=
  let cur := deckGet d u.id
  if maxCopies own u.id ≤ cur then d
  else deckSet d u.id (cur + 1)

/-- Source `removeFromDeck` (lines 302-308): at count ≤ 1 delete the entry,
otherwise decrement. -/
def removeFromDeck (u : GameUnit) (d : Deck) : Deck :=
  let cur := deckGet d u.id
  if cur ≤ 1 then deckDel d u.id
  else deckSet d u.id (cur - 1)

/-- Source `deckItems` (lines 242-245): map each deck entry to the first catalog
unit with that id, dropping entries whose id is not in the catalog
(`.filter(x => x.unit)`). -/
def deckItems (units : List GameUnit) (d : Deck) : List (GameUnit × Nat) :=
  d.filterMap (fun e => (units.find? (fun x => x.id == e.1)).map (fun u => (u, e.2)))

/-- Source `deckPoints` (line 247): `reduce((acc,{unit,count}) => acc + (unit.points||0)*count, 0)`,
i.e. the sum of `points × count` over the resolved items. -/
def deckPoints (units : List GameUnit) (d : Deck) : Nat :=
  ((deckItems units d).map (fun p => p.1.points * p.2)).sum

/-- Source `effectiveSumByRange` (lines 249-260): for each range r,
`out[r] += Number(st[...]||0) * count` over the resolved items. -/
def effectiveSumByRange (units : List GameUnit) (d : Deck) (r : Fin 4) : ℚ :=
  ((deckItems units d).map (fun p => p.1.stats r * (p.2 : ℚ))).sum

/-- Deck faction classification result (line 268). -/
inductive Faction
  | Axis
  | Allies
  | Mixed
deriving DecidableEq

/-- The hard-coded Axis nation set (lines 230 and 264). -/
def axisNations : List String :=
  ["Germany", "Italy", "Japan", "Finland", "Romania", "Hungary", "Bulgaria", "Axis"]

/-- The hard-coded Allies nation set (lines 231 and 265). -/
def alliesNations : List String :=
  ["USA", "United States", "United Kingdom", "UK", "Britain", "Soviet Union", "USSR",
   "France", "Canada", "Netherlands", "Poland", "Australia", "New Zealand", "Greece",
   "Norway", "Allies"]

/-- Source `factionOfDeck` (lines 262-269): "Axis" when every nation in the deck is
in the Axis set (vacuously true for an empty deck), else "Allies" when every
nation is in the Allies set, else "Mixed".  The `Set` dedup of nations does
not change an `every` test, so the list of nations is used directly. -/
def factionOfDeck (units : List GameUnit) (d : Deck) : Faction :=
  let ns := (deckItems units d).map (fun p => p.1.nation)
  if ns.all (fun n => axisNations.contains n) then Faction.Axis
  else if ns.all (fun n => alliesNations.contains n) then Faction.Allies
  else Faction.Mixed

/-- The `factionRule` selector value (line 136). -/
inductive FactionRule
  | axis_only
  | allies_only
  | mixed
deriving DecidableEq

/-- The add button's `disabled` expression (lines 444-447):
`(inDeck >= maxCopies) || (deckPoints + (u.points||0) > pointCap) ||
 (factionRule!=="mixed" && deckItems.length>0 && factionOfDeck!==(rule?"Axis":"Allies"))`. -/
def addDisabled (own : Own) (units : List GameUnit) (cap : Nat) (rule : FactionRule)
    (d : Deck) (u : GameUnit) : Bool :=
  decide (maxCopies own u.id ≤ deckGet d u.id)
  || decide (cap < deckPoints units d + u.points)
  || (!decide (rule = FactionRule.mixed) && decide (0 < (deckItems units d).length)
      && !decide (factionOfDeck units d
            = (if rule = FactionRule.axis_only then Faction.Axis else Faction.Allies)))

-- ------------------------------------------------------------------
-- Wait-time parser (lines 46-55) and its catch-site fallback (line 282)
-- ------------------------------------------------------------------

/-- JS `\w` (ASCII word character), as used by the `\b` boundary test. -/
def isWordChar (c : Char) : Bool := c.isAlpha || c.isDigit || c = '_'

/-- JS `\s`, restricted to the ASCII whitespace relevant here. -/
def isSpaceChar (c : Char) : Bool :=
  c = ' ' || c = '\t' || c = '\n' || c = '\r' || c = '\x0b' || c = '\x0c'

/-- Match a lowercase literal word case-insensitively at the head, returning
the rest on success. -/
def matchWordCI : List Char → List Char → Option (List Char)
  | [], rest => some rest
  | _ :: _, [] => none
  | w :: ws, c :: cs => if c.toLower = w then matchWordCI ws cs else none

/-- Pattern `(?:w1|w2|w3)\b`: try the alternatives in order at this position; each
ends in a word character, so the trailing `\b` holds iff the remainder does
not begin with a word character. -/
def unitAltHere (alts : List (List Char)) (cs : List Char) : Bool :=
  alts.any (fun w =>
    match matchWordCI w cs with
    | some [] => true
    | some (c :: _) => !isWordChar c
    | none => false)

/-- All suffixes reachable by `\s*` (greedy with backtracking: 0 up to the
maximal run of leading whitespace). -/
def afterSpaces : List Char → List (List Char)
  | [] => [[]]
  | c :: cs => (c :: cs) :: (if isSpaceChar c then afterSpaces cs else [])

/-- Split off the maximal leading digit run. -/
def takeDigits : List Char → List Char × List Char
  | [] => ([], [])
  | c :: cs =>
    if c.isDigit then
      let p := takeDigits cs
      (c :: p.1, p.2)
    else ([], c :: cs)

/-- Value of `parseInt` on a digit run. -/
def digitsToNat (ds : List Char) : Nat :=
  ds.foldl (fun a c => a * 10 + (c.toNat - 48)) 0

/-- Backtracking over the capture `(\d+)`: the first argument is the
reversed digit run still claimed by `\d+`; on failure the last claimed
digit is given back to the tail.  Succeeds with the captured integer when
some split is followed by `\s*` and a unit word with its `\b`. -/
def tryDigitSplit (alts : List (List Char)) : List Char → List Char → Option Nat
  | [], _ => none
  | c :: rrest, tail =>
    if (afterSpaces tail).any (unitAltHere alts) then
      some (digitsToNat ((c :: rrest).reverse))
    else tryDigitSplit alts rrest (c :: tail)

/-- Leftmost-match scan of `(\d+)\s*(?:alts)\b` over the message, JS
`String.match` style: attempt the pattern at each index in turn. -/
def scanNumUnit (alts : List (List Char)) : List Char → Option Nat
  | [] => none
  | c :: cs =>
    if c.isDigit then
      let p := takeDigits (c :: cs)
      match tryDigitSplit alts p.1.reverse p.2 with
      | some n => some n
      | none => scanNumUnit alts cs
    else scanNumUnit alts cs

/-- The alternatives of `/(\d+)\s*(?:second|sec|s)\b/i`. -/
def secondWords : List (List Char) :=
  [['s', 'e', 'c', 'o', 'n', 'd'], ['s', 'e', 'c'], ['s']]

/-- The alternatives of `/(\d+)\s*(?:minute|min|m)\b/i`. -/
def minuteWords : List (List Char) :=
  [['m', 'i', 'n', 'u', 't', 'e'], ['m', 'i', 'n'], ['m']]

/-- Source `parseWaitSeconds` (lines 46-55): `null` for a falsy message; else the
first seconds-pattern capture; else 60 × the first minutes-pattern capture;
else `null`. -/
def parseWaitSeconds (msg : String) : Option Nat :=
  if msg = "" then none
  else
    match scanNumUnit secondWords msg.data with
    | some n => some n
    | none =>
      match scanNumUnit minuteWords msg.data with
      | some n => some (n * 60)
      | none => none

/-- The rate-limit catch site (line 282): `const wait = e.wait ?? 60` where
`e.wait = parseWaitSeconds(payload.msg)` (line 103). -/
def rateLimitWait (msg : String) : Nat :=
  (parseWaitSeconds msg).getD 60

/-- Line 283: `until = Date.now() + wait * 1000`. -/
def rateLimitUntil (now : Int) (msg : String) : Int :=
  now + (rateLimitWait msg : Int) * 1000

-- ------------------------------------------------------------------
-- Catalog filter pipeline (lines 220-239)
-- ------------------------------------------------------------------

/-- Boolean list-prefix test on characters. -/
def prefB : List Char → List Char → Bool
  | [], _ => true
  | _ :: _, [] => false
  | a :: as, b :: bs => a = b && prefB as bs

/-- Boolean list-infix test on characters (JS `String.includes`). -/
def infixB (n : List Char) : List Char → Bool
  | [] => n.isEmpty
  | c :: cs => prefB n (c :: cs) || infixB n cs

/-- Test `hay.toLowerCase().includes(q.toLowerCase())`. -/
def containsCI (hay q : String) : Bool :=
  infixB (q.data.map Char.toLower) (hay.data.map Char.toLower)

/-- Truthiness of `ownership[u.id]?.owned` (line 236). -/
def ownedOf : Option OwnRec → Bool
  | some r => r.owned
  | none => false

/-- Truthiness of `ownership[u.id]?.copies > 0` (line 236): `undefined > 0`
is false. -/
def copiesPos : Option OwnRec → Bool
  | some r =>
    match r.copies with
    | some c => decide (0 < c)
    | none => false
  | none => false

/-- The live filter configuration state (lines 136-141): search text,
nation, type, faction rule, owned-only toggle. -/
structure FilterCfg where
  q : String
  nation : String
  utype : String
  rule : FactionRule
  ownedOnly : Bool

/-- Source `filtered` (lines 220-239): sequential narrowing — text match on name or
abilities when `q` is non-empty, nation equality unless "All", type equality
unless "All", fixed faction-set membership unless the rule is mixed, and the
owned-or-positive-copies test when `ownedOnly`.  A null `name`/`abilities`
never matches a non-empty query, so both are modelled as strings with null
read as `""`. -/
def filteredUnits (own : Own) (cfg : FilterCfg) (units : List GameUnit) : List GameUnit :=
  let l1 :=
    if cfg.q ≠ "" then
      units.filter (fun u => containsCI u.name cfg.q || containsCI u.abilities cfg.q)
    else units
  let l2 := if cfg.nation ≠ "All" then l1.filter (fun u => u.nation == cfg.nation) else l1
  let l3 := if cfg.utype ≠ "All" then l2.filter (fun u => u.utype == cfg.utype) else l2
  let l4 :=
    if cfg.rule ≠ FactionRule.mixed then
      l3.filter (fun u =>
        if cfg.rule = FactionRule.axis_only then axisNations.contains u.nation
        else alliesNations.contains u.nation)
    else l3
  if cfg.ownedOnly then
    l4.filter (fun u => ownedOf (own u.id) || copiesPos (own u.id))
  else l4

/-- Modelled from the spec's words (§4.1), for comparison with
`filteredUnits`: one predicate a unit must pass — case-insensitive substring
match of the search text against name or abilities, nation equality unless
"All", type equality unless "All", fixed faction-set membership when the
rule is not mixed, and `owned == true` or `copies > 0` when `ownedOnly`. -/
def specKeep (own : Own) (cfg : FilterCfg) (u : GameUnit) : Bool :=
  (containsCI u.name cfg.q || containsCI u.abilities cfg.q)
  && (cfg.nation == "All" || u.nation == cfg.nation)
  && (cfg.utype == "All" || u.utype == cfg.utype)
  && (match cfg.rule with
      | FactionRule.mixed => true
      | FactionRule.axis_only => axisNations.contains u.nation
      | FactionRule.allies_only => alliesNations.contains u.nation)
  && (!cfg.ownedOnly || ownedOf (own u.id) || copiesPos (own u.id))

-- ------------------------------------------------------------------
-- Save-time validation (lines 311-357)
-- ------------------------------------------------------------------

/-- The error thrown by `saveDeck` before any persistence request, `none`
when validation passes (lines 314-317): sign-in check, then point cap, then
Axis-only, then Allies-only. -/
def saveDeckError (signedIn : Bool) (units : List GameUnit) (cap : Nat)
    (rule : FactionRule) (d : Deck) : Option String :=
  if !signedIn then some "Sign in first (magic link)"
  else if cap < deckPoints units d then some "Deck exceeds point cap"
  else if rule = FactionRule.axis_only ∧ factionOfDeck units d ≠ Faction.Axis then
    some "Deck violates Axis-only rule"
  else if rule = FactionRule.allies_only ∧ factionOfDeck units d ≠ Faction.Allies then
    some "Deck violates Allies-only rule"
  else none

/-- The slice of component state `saveDeck` touches: the deck plus the
`error`/`ok` message slots (lines 143-147). -/
structure SaveState where
  deck : Deck
  error : String
  ok : String
deriving DecidableEq

/-- One run of `saveDeck` (lines 311-357) up to the persistence boundary:
on a validation error the catch block sets `error` to the thrown message
(`formatError` returns `e.message` verbatim) and no request is issued
(`none`); otherwise the entry list `Object.entries(deck)` is posted
(line 339) and `ok` is set.  `saveDeck` never writes the deck. -/
def saveDeckStep (signedIn : Bool) (units : List GameUnit) (cap : Nat)
    (rule : FactionRule) (st : SaveState) : SaveState × Option (List (String × Nat)) :=
  match saveDeckError signedIn units cap rule st.deck with
  | some msg => ({ deck := st.deck, error := msg, ok := "" }, none)
  | none => ({ deck := st.deck, error := "", ok := "Deck saved" }, some st.deck)

-- ------------------------------------------------------------------
-- Cooldown timer (lines 150-169, 272-291, 389)
-- ------------------------------------------------------------------

/-- The displayed countdown: inside the effect (lines 156-169), when
`cooldownUntil > Date.now()` the tick stores
`Math.max(0, Math.ceil((cooldownUntil - Date.now()) / 1000))`, otherwise
`cooldownLeft` is set to `0` directly.  Times are integer milliseconds; the
float division is exact enough to model as rational division. -/
def displayedCooldownLeft (deadline now : Int) : Int :=
  if now < deadline then max 0 (Int.ceil ((deadline - now : ℚ) / 1000)) else 0

/-- The cooldown slice of component state: the stored deadline and the
displayed seconds (lines 150-154). -/
structure CdState where
  deadline : Int
  left : Int
deriving DecidableEq

/-- One tick of the countdown effect: recompute `cooldownLeft`; the stored
`cooldownUntil` is never written by the tick. -/
def tickUpdate (st : CdState) (now : Int) : CdState :=
  { deadline := st.deadline, left := displayedCooldownLeft st.deadline now }

/-- Outcome of the submit handler `onMagicSubmit` (lines 272-291), up to the
sign-in collaborator call: `signInRequest` is issued only past the empty-
email and cooldown guards. -/
inductive SubmitOutcome
  | errorNoEmail
  | errorCooldown (left : Int)
  | signInRequest (email : String)
deriving DecidableEq

/-- Source `onMagicSubmit` guards (lines 275-278): `if (!email) ...; if
(cooldownLeft > 0) ...; await auth.signInMagic(email)`. -/
def onMagicSubmit (email : String) (left : Int) : SubmitOutcome :=
  if email = "" then SubmitOutcome.errorNoEmail
  else if 0 < left then SubmitOutcome.errorCooldown left
  else SubmitOutcome.signInRequest email

/-- The sign-in button's `disabled` expression (line 389):
`!email || cooldownLeft > 0`. -/
def signInButtonDisabled (email : String) (left : Int) : Bool :=
  decide (email = "") || decide (0 < left)

-- ------------------------------------------------------------------
-- Greedy recommender (lines 360-379)
-- ------------------------------------------------------------------

/-- The candidate score (lines 362-365):
`(eff0+eff1+eff2+eff3) / Math.max(1, u.points||1)`; with non-negative
integer points, `Math.max(1, u.points||1)` is `max 1 points`. -/
def recScore (u : GameUnit) : ℚ :=
  (u.stats 0 + u.stats 1 + u.stats 2 + u.stats 3) / max 1 (u.points : ℚ)

/-- Stable descending insertion of one unit by score. -/
def insertDesc (a : GameUnit) : List GameUnit → List GameUnit
  | [] => [a]
  | b :: bs => if recScore b < recScore a then a :: b :: bs else b :: insertDesc a bs

/-- Sorting `sort((a,b) => b.score - a.score)` (line 366): JS `Array.sort` is
stable, so its output on a numeric-descending comparator is the stable
descending order, realised here as a stable insertion sort. -/
def sortByScoreDesc (l : List GameUnit) : List GameUnit :=
  l.foldl (fun acc a => insertDesc a acc) []

/-- The inner copy-adding loop of `recommend` (lines 371-375) for one
candidate: while `pts + (u.points||0) <= pointCap`: break when the current
count has reached the ownership limit; otherwise record one more copy and
its points (`next[u.id] = cur+1; pts += points`), then break when
`pointCap - pts < 3`. -/
def recInner (uid : String) (points limit cap : Nat) (d : Deck) (pts : Nat) : Deck × Nat :=
  if pts + points ≤ cap then
    if _h : deckGet d uid < limit then
      let d' := deckSet d uid (deckGet d uid + 1)
      let pts' := pts + points
      if cap - pts' < 3 then (d', pts')
      else recInner uid points limit cap d' pts'
    else (d, pts)
  else (d, pts)
termination_by limit - deckGet d uid
decreasing_by
  have hset : ∀ (dd : Deck) (n : Nat), deckGet (deckSet dd uid n) uid = n := by
    intro dd n
    induction dd with
    | nil => simp [deckGet, deckSet]
    | cons e rest ih =>
      obtain ⟨k, v⟩ := e
      by_cases hk : k = uid
      · simp [deckSet, deckGet, hk]
      · simp [deckSet, deckGet, hk, ih]
  simp only [hset]
  omega

/-- The candidate loop of `recommend` (lines 368-377): run the inner loop
for each scored candidate in order, starting from the empty result; stop
early once `pts >= pointCap - 1`. -/
def recOuter (own : Own) (cap : Nat) : List GameUnit → Deck → Nat → Deck × Nat
  | [], d, pts => (d, pts)
  | u :: rest, d, pts =>
    let r := recInner u.id u.points (maxCopies own u.id) cap d pts
    if cap - 1 ≤ r.2 then r
    else recOuter own cap rest r.1 r.2

/-- Source `recommend` (lines 360-379): score the pooled (filtered) units, sort
stably by descending score, greedily fill a fresh deck, and replace the
current deck with the result (`setDeck(next)`). -/
def recommend (own : Own) (cap : Nat) (pool : List GameUnit) : Deck :=
  (recOuter own cap (sortByScoreDesc pool) [] 0).1

-- ------------------------------------------------------------------
-- Auxiliary definitions for the statements
-- ------------------------------------------------------------------

/-- Points contributed per copy of a given id: the first catalog unit with
that id, `0` when the id does not resolve (exactly how `deckItems` and
`deckPoints` resolve a deck entry). -/
def lookupPoints (units : List GameUnit) (i : String) : Nat :=
  match units.find? (fun x => x.id == i) with
  | some u => u.points
  | none => 0

/-- The deck entries whose id resolves in the catalog. -/
def knownEntries (units : List GameUnit) (d : Deck) : Deck :=
  d.filter (fun e => (units.find? (fun x => x.id == e.1)).isSome)

/-- Deck states reachable from the empty deck when every add goes through
the catalog panel's gate (lines 444-459): `addToDeck` is invoked only while
the add button's `disabled` expression is false; removes are unrestricted.
(The deck panel's `+` button, lines 480-484, bypasses this gate.) -/
inductive ReachGated (own : Own) (units : List GameUnit) (cap : Nat) (rule : FactionRule) :
    Deck → Prop
  | empty : ReachGated own units cap rule []
  | addStep (d : Deck) (u : GameUnit) (hu : u ∈ units)
      (hgate : addDisabled own units cap rule d u = false)
      (hd : ReachGated own units cap rule d) :
      ReachGated own units cap rule (addToDeck own u d)
  | removeStep (d : Deck) (u : GameUnit) (hd : ReachGated own units cap rule d) :
      ReachGated own units cap rule (removeFromDeck u d)

/-- Concrete catalog entry builder for witnesses and counterexamples. -/
def mkUnit (i : String) (nat : String) (pts : Nat) : GameUnit :=
  { id := i, name := i, nation := nat, utype := "Ship", points := pts,
    abilities := "", stats := fun _ => 0 }

/-- Empty ownership map (no `user_ownership` rows). -/
def ownNone : Own := fun _ => none

/-- Ownership map with `copies = 3` for unit id "a" only. -/
def own3 : Own := fun i => if i = "a" then some { owned := true, copies := some 3 } else none

-- ==================================================================
-- Theorems
-- ==================================================================

-- Helper lemmas on the deck representation.

theorem deckGet_deckSet (d : Deck) (i : String) (n : Nat) :
    deckGet (deckSet d i n) i = n := by
  induction d with
  | nil => simp [deckGet, deckSet]
  | cons e rest ih =>
    obtain ⟨k, v⟩ := e
    by_cases hk : k = i
    · simp [deckSet, deckGet, hk]
    · simp [deckSet, deckGet, hk, ih]

theorem deckPoints_nil (units : List GameUnit) : deckPoints units [] = 0 := rfl

theorem deckPoints_cons (units : List GameUnit) (k : String) (v : Nat) (rest : Deck) :
    deckPoints units ((k, v) :: rest) = lookupPoints units k * v + deckPoints units rest := by
  unfold deckPoints deckItems lookupPoints
  cases hf : units.find? (fun x => x.id == k) <;>
    simp [List.filterMap_cons, hf, Nat.add_comm]

theorem deckPoints_deckSet (units : List GameUnit) (d : Deck) (i : String) (n : Nat) :
    deckPoints units (deckSet d i n) + lookupPoints units i * deckGet d i
      = deckPoints units d + lookupPoints units i * n := by
  induction d with
  | nil => simp [deckSet, deckGet, deckPoints_cons, deckPoints_nil]
  | cons e rest ih =>
    obtain ⟨k, v⟩ := e
    by_cases hk : k = i
    · subst hk
      simp [deckSet, deckGet, deckPoints_cons]
      omega
    · simp [deckSet, deckGet, hk, deckPoints_cons]
      omega

theorem deckPoints_deckDel (units : List GameUnit) (d : Deck) (i : String) :
    deckPoints units (deckDel d i) + lookupPoints units i * deckGet d i
      = deckPoints units d := by
  induction d with
  | nil => simp [deckDel, deckGet, deckPoints_nil]
  | cons e rest ih =>
    obtain ⟨k, v⟩ := e
    by_cases hk : k = i
    · subst hk
      simp [deckDel, deckGet, deckPoints_cons]
      omega
    · simp [deckDel, deckGet, hk, deckPoints_cons]
      omega

theorem deckPoints_removeFromDeck_le (units : List GameUnit) (u : GameUnit) (d : Deck) :
    deckPoints units (removeFromDeck u d) ≤ deckPoints units d := by
  unfold removeFromDeck
  by_cases hc : deckGet d u.id ≤ 1
  · simp only [hc, if_true]
    have h := deckPoints_deckDel units d u.id
    omega
  · simp only [hc, if_false]
    have h := deckPoints_deckSet units d u.id (deckGet d u.id - 1)
    have hg : 1 ≤ deckGet d u.id := by omega
    have hmul : lookupPoints units u.id * (deckGet d u.id - 1) + lookupPoints units u.id
        = lookupPoints units u.id * deckGet d u.id := by
      obtain ⟨k, hk⟩ := Nat.exists_eq_add_of_le hg
      rw [hk]
      have h1 : 1 + k - 1 = k := by omega
      rw [h1]
      ring
    omega

theorem lookupPoints_of_mem (units : List GameUnit) (u : GameUnit)
    (hu : u ∈ units) (hn : (units.map (fun x => x.id)).Nodup) :
    lookupPoints units u.id = u.points := by
  induction units with
  | nil => cases hu
  | cons v rest ih =>
    simp only [List.map_cons, List.nodup_cons] at hn
    rcases List.mem_cons.mp hu with h | h
    · subst h
      simp [lookupPoints]
    · by_cases hid : v.id = u.id
      · exact absurd (hid ▸ List.mem_map_of_mem (fun x => x.id) h) hn.1
      · have hb : (v.id == u.id) = false := beq_eq_false_iff_ne.mpr hid
        have : lookupPoints (v :: rest) u.id = lookupPoints rest u.id := by
          simp [lookupPoints, List.find?, hb]
        rw [this]
        exact ih h hn.2

-- Helper lemmas on the recommender loops.

theorem recInner_stops_after_thin_add (uid : String) (points limit cap : Nat)
    (d : Deck) (pts : Nat) (h1 : pts + points ≤ cap) (h2 : deckGet d uid < limit)
    (h3 : cap - (pts + points) < 3) :
    recInner uid points limit cap d pts = (deckSet d uid (deckGet d uid + 1), pts + points) := by
  rw [recInner]
  simp [h1, h2, h3]

theorem recInner_pts_le (uid : String) (points limit cap : Nat) (d : Deck) (pts : Nat)
    (h : pts ≤ cap) : (recInner uid points limit cap d pts).2 ≤ cap := by
  have H : ∀ (n : Nat) (d : Deck) (pts : Nat), limit - deckGet d uid ≤ n → pts ≤ cap →
      (recInner uid points limit cap d pts).2 ≤ cap := by
    intro n
    induction n with
    | zero =>
      intro d pts hn hp
      rw [recInner]
      by_cases hc : pts + points ≤ cap
      · have hlt : ¬ deckGet d uid < limit := by omega
        simp [hc, hlt, hp]
      · simp [hc, hp]
    | succ k ih =>
      intro d pts hn hp
      rw [recInner]
      by_cases hc : pts + points ≤ cap
      · by_cases hlt : deckGet d uid < limit
        · by_cases hbrk : cap - (pts + points) < 3
          · simp [hc, hlt, hbrk]
          · simp [hc, hlt, hbrk]
            apply ih
            · rw [deckGet_deckSet]
              omega
            · exact hc
        · simp [hc, hlt, hp]
      · simp [hc, hp]
  exact H (limit - deckGet d uid) d pts le_rfl h

theorem recOuter_pts_le (own : Own) (cap : Nat) :
    ∀ (l : List GameUnit) (d : Deck) (pts : Nat), pts ≤ cap →
      (recOuter own cap l d pts).2 ≤ cap := by
  intro l
  induction l with
  | nil =>
    intro d pts h
    simpa [recOuter] using h
  | cons u rest ih =>
    intro d pts h
    have h1 := recInner_pts_le u.id u.points (maxCopies own u.id) cap d pts h
    rw [recOuter]
    by_cases hb : cap - 1 ≤ (recInner u.id u.points (maxCopies own u.id) cap d pts).2
    · simp only [hb, if_true]
      exact h1
    · simp only [hb, if_false]
      exact ih _ _ h1

-- Helper lemmas on the filter pipeline.

theorem filter_filter_fused {α : Type} (p q : α → Bool) (l : List α) :
    (l.filter p).filter q = l.filter (fun a => p a && q a) := by
  induction l with
  | nil => rfl
  | cons a as ih => by_cases hp : p a <;> by_cases hq : q a <;> simp [List.filter, hp, hq, ih]

theorem containsCI_blank (hay : String) : containsCI hay "" = true := by
  unfold containsCI
  cases h : hay.data.map Char.toLower <;> simp [infixB, prefB, List.isEmpty]

-- Helper lemma for unknown deck entries.

theorem deckItems_knownEntries (units : List GameUnit) (d : Deck) :
    deckItems units (knownEntries units d) = deckItems units d := by
  induction d with
  | nil => rfl
  | cons e rest ih =>
    cases hf : units.find? (fun x => x.id == e.1) <;>
      simp [knownEntries, deckItems, List.filter_cons, List.filterMap_cons, hf] at ih ⊢ <;>
      exact ih

-- ==================================================================
-- Claim theorems
-- ==================================================================

/-- C2: evaluation of the wait-duration extraction at the claim's inputs.
For a message containing "after 54 seconds" the code does NOT extract 54:
`(?:second|sec|s)\b` cannot end inside the plural word "seconds" (the
boundary test fails before its final "s"), so `parseWaitSeconds` returns
null and the rate-limit catch site falls back to 60 — contradicting the
claim and the source's own `console.assert` at line 58.  The "1 minute"
case (60) and the empty-message fallback (60, no exception) behave as
claimed. -/
theorem waitExtraction_54_seconds_falls_back :
    parseWaitSeconds "after 54 seconds" = none
    ∧ rateLimitWait "after 54 seconds" = 60
    ∧ parseWaitSeconds "wait 1 minute" = some 60
    ∧ rateLimitWait "wait 1 minute" = 60
    ∧ parseWaitSeconds "" = none
    ∧ rateLimitWait "" = 60 := by
  refine ⟨?_, ?_, ?_, ?_, ?_, ?_⟩ <;> decide

/-- C10: deck entries whose id does not resolve in the loaded catalog are
dropped by `deckItems` before any aggregation, so they contribute nothing
to the point total or the per-range effective-damage sums and do not affect
the faction classification: restricting a deck to its resolvable entries
changes none of the derived values. -/
theorem unknown_ids_do_not_contribute (units : List GameUnit) (d : Deck) :
    deckItems units (knownEntries units d) = deckItems units d
    ∧ deckPoints units (knownEntries units d) = deckPoints units d
    ∧ (∀ r : Fin 4, effectiveSumByRange units (knownEntries units d) r
        = effectiveSumByRange units d r)
    ∧ factionOfDeck units (knownEntries units d) = factionOfDeck units d := by
  have key := deckItems_knownEntries units d
  exact ⟨key, by unfold deckPoints; rw [key], fun r => by unfold effectiveSumByRange; rw [key],
    by unfold factionOfDeck; rw [key]⟩

/-- C4, counterexample: the claim says no faction violation is ever raised
when saving an empty deck, for every faction rule including allies_only.
In the code an empty deck classifies as "Axis" (the all-Axis `every` is
vacuously true and is tested first), so with `factionRule = allies_only`
the save-time re-check at line 317 throws "Deck violates Allies-only rule"
for the empty deck. -/
theorem empty_deck_allies_only_save_fails :
    factionOfDeck [] [] = Faction.Axis
    ∧ saveDeckError true [] 150 FactionRule.allies_only []
        = some "Deck violates Allies-only rule" := by
  refine ⟨?_, ?_⟩ <;> decide

/-- C4, amended: an empty deck classifies as Axis, hence the save-time
faction re-check passes for an empty deck under axis_only and mixed, but
under allies_only saving an empty deck fails with the Allies-only
validation error. -/
theorem empty_deck_faction_at_save (units : List GameUnit) (cap : Nat) :
    factionOfDeck units [] = Faction.Axis
    ∧ saveDeckError true units cap FactionRule.axis_only [] = none
    ∧ saveDeckError true units cap FactionRule.mixed [] = none
    ∧ saveDeckError true units cap FactionRule.allies_only []
        = some "Deck violates Allies-only rule" := by
  have hfac : factionOfDeck units [] = Faction.Axis := rfl
  have hpts : deckPoints units [] = 0 := rfl
  refine ⟨hfac, ?_, ?_, ?_⟩ <;> simp [saveDeckError, hfac, hpts]

/-- C1, counterexample: `addToDeck` itself validates only the copy cap, and
the deck panel's `+` button (line 483) invokes it with no `disabled` gate,
so a sequence of the program's add operations can exceed the point cap:
with a 100-point unit, an empty ownership map and cap 150, two `addToDeck`
calls from the empty deck yield 200 deck points. -/
theorem addToDeck_sequence_exceeds_cap :
    deckPoints [mkUnit "a" "Germany" 100]
        (addToDeck ownNone (mkUnit "a" "Germany" 100)
          (addToDeck ownNone (mkUnit "a" "Germany" 100) [])) = 200
    ∧ 150 < 200 := by
  refine ⟨?_, ?_⟩ <;> decide

/-- C1, amended: the point-cap invariant holds for every deck reachable from
the empty deck when each add goes through the catalog panel's gated add
button (`addToDeck` invoked only while its `disabled` expression is false)
together with arbitrary removes, for a catalog with distinct unit ids; the
deck panel's ungated `+` button is excluded, since through it the cap can be
exceeded. -/
theorem gated_reach_points_le_cap (own : Own) (units : List GameUnit) (cap : Nat)
    (rule : FactionRule) (d : Deck)
    (hids : (units.map (fun u => u.id)).Nodup)
    (h : ReachGated own units cap rule d) :
    deckPoints units d ≤ cap := by
  induction h with
  | empty => simp [deckPoints_nil]
  | addStep d u hu hgate hd ih =>
    have hpts : deckPoints units d + u.points ≤ cap := by
      by_contra hcon
      push_neg at hcon
      have hB : addDisabled own units cap rule d u = true := by
        unfold addDisabled
        simp [hcon]
      rw [hB] at hgate
      cases hgate
    unfold addToDeck
    by_cases hcap : maxCopies own u.id ≤ deckGet d u.id
    · simpa [hcap] using ih
    · simp only [hcap, if_false]
      have hlp : lookupPoints units u.id = u.points := lookupPoints_of_mem units u hu hids
      have hx := deckPoints_deckSet units d u.id (deckGet d u.id + 1)
      rw [hlp] at hx
      have hmul : u.points * (deckGet d u.id + 1) = u.points * deckGet d u.id + u.points := by
        ring
      omega
  | removeStep d u hd ih =>
    exact le_trans (deckPoints_removeFromDeck_le units u d) ih

/-- C1 witness: the amended theorem applied to the empty reachable deck. -/
theorem gated_reach_points_le_cap_witness :
    ReachGated ownNone [mkUnit "a" "Germany" 100] 150 FactionRule.axis_only []
    ∧ deckPoints [mkUnit "a" "Germany" 100] [] ≤ 150 :=
  ⟨ReachGated.empty,
    gated_reach_points_le_cap ownNone [mkUnit "a" "Germany" 100] 150 FactionRule.axis_only []
      (by decide) ReachGated.empty⟩

/-- C5, counterexample: a unit with no OwnershipRecord does not get an
unlimited copy cap — the default is 99 (`?? 99`), so with the deck already
holding 99 copies the add is rejected (the deck is unchanged) even though
no ownership record exists for the unit. -/
theorem absent_ownership_add_rejected_at_99 :
    ownNone (mkUnit "a" "Germany" 1).id = none
    ∧ addToDeck ownNone (mkUnit "a" "Germany" 1) [("a", 99)] = [("a", 99)] := by
  refine ⟨rfl, ?_⟩
  decide

/-- C5, amended: when a unit has no OwnershipRecord its copy cap defaults to
99, not unlimited: the cap expression (shared verbatim by `addToDeck`, the
add button gate and the recommender limit) evaluates to 99, an add succeeds
while the current count is below 99, and an add at count ≥ 99 is rejected
with the deck unchanged. -/
theorem absent_ownership_copy_cap_99 (own : Own) (u : GameUnit) (d : Deck)
    (h : own u.id = none) :
    maxCopies own u.id = 99
    ∧ (deckGet d u.id < 99 → addToDeck own u d = deckSet d u.id (deckGet d u.id + 1))
    ∧ (99 ≤ deckGet d u.id → addToDeck own u d = d) := by
  have hm : maxCopies own u.id = 99 := by simp [maxCopies, h]
  refine ⟨hm, ?_, ?_⟩
  · intro hlt
    unfold addToDeck
    rw [hm]
    simp [Nat.not_le.mpr hlt]
  · intro hge
    unfold addToDeck
    rw [hm]
    simp [hge]

/-- C5 witness: with no ownership record, an add at count 5 succeeds. -/
theorem absent_ownership_copy_cap_99_witness :
    ownNone (mkUnit "a" "Germany" 1).id = none
    ∧ addToDeck ownNone (mkUnit "a" "Germany" 1) [("a", 5)] = [("a", 6)] := by
  refine ⟨rfl, ?_⟩
  have h := (absent_ownership_copy_cap_99 ownNone (mkUnit "a" "Germany" 1) [("a", 5)] rfl).2.1
    (by decide)
  rw [h]
  decide

/-- C6: with an ownership record of `copies = 3` for a unit and the deck
already holding 3 copies of it, the add button's `disabled` gate is true
and `addToDeck` leaves the deck unchanged — the count for the unit
remains 3. -/
theorem copy_cap_three_blocks_fourth_add (own : Own) (units : List GameUnit) (cap : Nat)
    (rule : FactionRule) (d : Deck) (u : GameUnit) (r : OwnRec)
    (hr : own u.id = some r) (hc : r.copies = some 3) (hd : deckGet d u.id = 3) :
    addDisabled own units cap rule d u = true
    ∧ addToDeck own u d = d
    ∧ deckGet (addToDeck own u d) u.id = 3 := by
  have hm : maxCopies own u.id = 3 := by simp [maxCopies, hr, hc]
  have hadd : addToDeck own u d = d := by
    unfold addToDeck
    simp [hm, hd]
  refine ⟨?_, hadd, ?_⟩
  · unfold addDisabled
    simp [hm, hd]
  · rw [hadd, hd]

/-- C6 witness: the gate and the unchanged deck at a concrete input. -/
theorem copy_cap_three_blocks_fourth_add_witness :
    deckGet [("a", 3)] (mkUnit "a" "Germany" 10).id = 3
    ∧ addToDeck own3 (mkUnit "a" "Germany" 10) [("a", 3)] = [("a", 3)]
    ∧ addDisabled own3 [] 150 FactionRule.mixed [("a", 3)] (mkUnit "a" "Germany" 10) = true := by
  have h := copy_cap_three_blocks_fourth_add own3 [] 150 FactionRule.mixed [("a", 3)]
    (mkUnit "a" "Germany" 10) { owned := true, copies := some 3 } (by decide) rfl (by decide)
  exact ⟨by decide, h.2.1, h.1⟩

/-- C3, counterexample: the reserve-margin rule is not a precondition of the
add.  With cap 150 and a single 148-point candidate (no ownership record),
`recommend` adds one copy — spending 148 and leaving only 2 < 3 points of
headroom after the add — and returns that deck, so a copy IS added although
it leaves less than 3 points of headroom. -/
theorem recommend_adds_copy_below_reserve :
    recommend ownNone 150 [mkUnit "a" "Germany" 148] = [("a", 1)]
    ∧ recOuter ownNone 150 [mkUnit "a" "Germany" 148] [] 0 = ([("a", 1)], 148)
    ∧ 150 - 148 < 3 := by
  have hinner : recInner "a" 148 99 150 [] 0 = ([("a", 1)], 148) := by
    have h := recInner_stops_after_thin_add "a" 148 99 150 [] 0 (by decide) (by decide)
      (by decide)
    simpa [deckGet, deckSet] using h
  have houter : recOuter ownNone 150 [mkUnit "a" "Germany" 148] [] 0 = ([("a", 1)], 148) := by
    rw [recOuter]
    simp [mkUnit, maxCopies, ownNone, hinner, recOuter]
  refine ⟨?_, houter, by decide⟩
  unfold recommend
  have hs : sortByScoreDesc [mkUnit "a" "Germany" 148] = [mkUnit "a" "Germany" 148] := rfl
  rw [hs, houter]

/-- C3, amended: the 3-point reserve rule is a post-hoc stopping rule, not a
precondition: `recommend` may add a copy that leaves fewer than 3 points of
headroom, but any add that does so immediately terminates that candidate's
inner loop (exactly that one copy is recorded and the loop returns); every
add still requires `spent + points ≤ pointCap` beforehand, so neither the
inner loop nor the whole recommender ever spends more than the cap. -/
theorem reserve_margin_is_post_hoc_stop (uid : String) (points limit cap : Nat) (d : Deck)
    (pts : Nat) (own : Own) (pool : List GameUnit) :
    (pts + points ≤ cap → deckGet d uid < limit → cap - (pts + points) < 3 →
      recInner uid points limit cap d pts = (deckSet d uid (deckGet d uid + 1), pts + points))
    ∧ (pts ≤ cap → (recInner uid points limit cap d pts).2 ≤ cap)
    ∧ (recOuter own cap pool [] 0).2 ≤ cap :=
  ⟨fun h1 h2 h3 => recInner_stops_after_thin_add uid points limit cap d pts h1 h2 h3,
   fun h => recInner_pts_le uid points limit cap d pts h,
   recOuter_pts_le own cap pool [] 0 (Nat.zero_le cap)⟩

/-- C3 witness: a thin-headroom add (5+4 = 9 of cap 10) records exactly one
copy and stops; the spent total stays within the cap. -/
theorem reserve_margin_is_post_hoc_stop_witness :
    recInner "a" 4 9 10 [] 5 = ([("a", 1)], 9)
    ∧ (recInner "a" 4 9 10 [] 5).2 ≤ 10 := by
  have h := reserve_margin_is_post_hoc_stop "a" 4 9 10 [] 5 ownNone []
  refine ⟨?_, h.2.1 (by decide)⟩
  have h1 := h.1 (by decide) (by decide) (by decide)
  simpa [deckGet, deckSet] using h1

/-- C7: the save operation re-validates before persisting: with a signed-in
session it fails with "Deck exceeds point cap" when the deck total exceeds
the cap, and with the matching faction-violation error when the rule is
axis_only (resp. allies_only) and the classification differs; on every such
failure no persistence request is issued (payload `none`) and the thrown
message is surfaced verbatim in the error slot; the deck component is
unchanged by every save outcome, so the deck is never auto-corrected or
truncated. -/
theorem save_revalidates_and_preserves_deck (units : List GameUnit) (cap : Nat)
    (rule : FactionRule) (st : SaveState) :
    ((saveDeckStep true units cap rule st).1.deck = st.deck)
    ∧ (cap < deckPoints units st.deck →
        saveDeckStep true units cap rule st
          = ({ deck := st.deck, error := "Deck exceeds point cap", ok := "" }, none))
    ∧ (deckPoints units st.deck ≤ cap → rule = FactionRule.axis_only →
        factionOfDeck units st.deck ≠ Faction.Axis →
        saveDeckStep true units cap rule st
          = ({ deck := st.deck, error := "Deck violates Axis-only rule", ok := "" }, none))
    ∧ (deckPoints units st.deck ≤ cap → rule = FactionRule.allies_only →
        factionOfDeck units st.deck ≠ Faction.Allies →
        saveDeckStep true units cap rule st
          = ({ deck := st.deck, error := "Deck violates Allies-only rule", ok := "" }, none)) := by
  refine ⟨?_, ?_, ?_, ?_⟩
  · cases hE : saveDeckError true units cap rule st.deck <;> simp [saveDeckStep, hE]
  · intro h
    simp [saveDeckStep, saveDeckError, h]
  · intro h1 h2 h3
    subst h2
    simp [saveDeckStep, saveDeckError, Nat.not_lt.mpr h1, h3]
  · intro h1 h2 h3
    subst h2
    simp [saveDeckStep, saveDeckError, Nat.not_lt.mpr h1, h3]

/-- C7 witness: a 200-point deck against cap 150 fails the save with the
verbatim message, persists nothing, and leaves the deck unchanged. -/
theorem save_revalidates_witness :
    saveDeckStep true [mkUnit "a" "Germany" 100] 150 FactionRule.mixed
        { deck := [("a", 2)], error := "", ok := "" }
      = ({ deck := [("a", 2)], error := "Deck exceeds point cap", ok := "" }, none) :=
  (save_revalidates_and_preserves_deck [mkUnit "a" "Germany" 100] 150 FactionRule.mixed
    { deck := [("a", 2)], error := "", ok := "" }).2.1 (by decide)

/-- C9: the displayed cooldown always equals max(0, ceil((until − now)/1000));
while now < until the submit path rejects with the cooldown error and never
issues the sign-in request; once now ≥ until the countdown reads 0, a
submit with a non-empty email issues the sign-in request and the sign-in
button is re-enabled; and a tick never clears or modifies the stored
deadline. -/
theorem cooldown_countdown_gates_signin (deadline now : Int) (email : String)
    (st : CdState) (he : email ≠ "") :
    displayedCooldownLeft deadline now = max 0 (Int.ceil ((deadline - now : ℚ) / 1000))
    ∧ (now < deadline →
        onMagicSubmit email (displayedCooldownLeft deadline now)
          = SubmitOutcome.errorCooldown (displayedCooldownLeft deadline now))
    ∧ (deadline ≤ now →
        displayedCooldownLeft deadline now = 0
        ∧ onMagicSubmit email (displayedCooldownLeft deadline now)
            = SubmitOutcome.signInRequest email
        ∧ signInButtonDisabled email (displayedCooldownLeft deadline now) = false)
    ∧ (tickUpdate st now).deadline = st.deadline := by
  have hpos : now < deadline → 0 < displayedCooldownLeft deadline now := by
    intro h
    unfold displayedCooldownLeft
    rw [if_pos h]
    have hlt : (0 : ℚ) < ((deadline : ℚ) - (now : ℚ)) / 1000 := by
      apply div_pos
      · have : (now : ℚ) < (deadline : ℚ) := by exact_mod_cast h
        linarith
      · norm_num
    have hceil : 0 < Int.ceil (((deadline : ℚ) - (now : ℚ)) / 1000) := by
      rw [Int.lt_ceil]
      simpa using hlt
    exact lt_max_of_lt_right hceil
  refine ⟨?_, ?_, ?_, rfl⟩
  · by_cases h : now < deadline
    · unfold displayedCooldownLeft
      rw [if_pos h]
    · unfold displayedCooldownLeft
      rw [if_neg h]
      symm
      apply max_eq_left
      rw [Int.ceil_le]
      have hle : (deadline : ℚ) - (now : ℚ) ≤ 0 := by
        have : (deadline : ℚ) ≤ (now : ℚ) := by exact_mod_cast not_lt.mp h
        linarith
      rw [div_le_iff₀ (by norm_num : (0 : ℚ) < 1000)]
      push_cast
      linarith
  · intro h
    unfold onMagicSubmit
    rw [if_neg he, if_pos (hpos h)]
  · intro h
    have h0 : displayedCooldownLeft deadline now = 0 := by
      unfold displayedCooldownLeft
      rw [if_neg (not_lt.mpr h)]
    refine ⟨h0, ?_, ?_⟩
    · unfold onMagicSubmit
      rw [if_neg he, h0]
      simp
    · simp [signInButtonDisabled, he, h0]

/-- C9 witness: with the deadline one second ahead, submitting rejects with
the cooldown error. -/
theorem cooldown_countdown_gates_signin_witness :
    onMagicSubmit "x" (displayedCooldownLeft 1000 0)
      = SubmitOutcome.errorCooldown (displayedCooldownLeft 1000 0) :=
  (cooldown_countdown_gates_signin 1000 0 "x" { deadline := 1000, left := 1 }
    (by decide)).2.1 (by decide)

/-- C8: the catalog filter pipeline is a pure function whose output is the
input catalog filtered in original order by one conjunction of the active
stages — case-insensitive substring match of the search text against name
or abilities (either suffices), nation equality unless "All", type equality
unless "All", fixed Axis (resp. Allies) nation-set membership when the rule
is axis_only (resp. allies_only), and ownership `owned == true` or
`copies > 0` when ownedOnly — exactly the specification's single-pass
predicate `specKeep`. -/
theorem filter_pipeline_matches_spec (own : Own) (cfg : FilterCfg) (units : List GameUnit) :
    filteredUnits own cfg units = units.filter (specKeep own cfg) := by
  have h1 : (if cfg.q ≠ "" then
        units.filter (fun u => containsCI u.name cfg.q || containsCI u.abilities cfg.q)
      else units)
      = units.filter (fun u => containsCI u.name cfg.q || containsCI u.abilities cfg.q) := by
    by_cases hq : cfg.q = ""
    · simp only [hq, ne_eq, not_true_eq_false, if_false]
      symm
      apply List.filter_eq_self.mpr
      intro u _
      simp [hq, containsCI_blank]
    · simp [hq]
  have h2 : ∀ l : List GameUnit,
      (if cfg.nation ≠ "All" then l.filter (fun u => u.nation == cfg.nation) else l)
        = l.filter (fun u => cfg.nation == "All" || u.nation == cfg.nation) := by
    intro l
    by_cases hn : cfg.nation = "All"
    · simp [hn]
    · have hb : (cfg.nation == "All") = false := beq_eq_false_iff_ne.mpr hn
      simp [hn, hb]
  have h3 : ∀ l : List GameUnit,
      (if cfg.utype ≠ "All" then l.filter (fun u => u.utype == cfg.utype) else l)
        = l.filter (fun u => cfg.utype == "All" || u.utype == cfg.utype) := by
    intro l
    by_cases ht : cfg.utype = "All"
    · simp [ht]
    · have hb : (cfg.utype == "All") = false := beq_eq_false_iff_ne.mpr ht
      simp [ht, hb]
  have h4 : ∀ l : List GameUnit,
      (if cfg.rule ≠ FactionRule.mixed then
          l.filter (fun u =>
            if cfg.rule = FactionRule.axis_only then axisNations.contains u.nation
            else alliesNations.contains u.nation)
        else l)
        = l.filter (fun u =>
            match cfg.rule with
            | FactionRule.mixed => true
            | FactionRule.axis_only => axisNations.contains u.nation
            | FactionRule.allies_only => alliesNations.contains u.nation) := by
    intro l
    rcases hr : cfg.rule <;> simp [hr]
  have h5 : ∀ l : List GameUnit,
      (if cfg.ownedOnly then l.filter (fun u => ownedOf (own u.id) || copiesPos (own u.id))
        else l)
        = l.filter (fun u => !cfg.ownedOnly || ownedOf (own u.id) || copiesPos (own u.id)) := by
    intro l
    cases ho : cfg.ownedOnly <;> simp [ho]
  unfold filteredUnits
  simp only []
  rw [h5, h4, h3, h2, h1]
  simp only [filter_filter_fused]
  apply List.filter_congr
  intro x hx
  simp only [specKeep, Bool.and_assoc]
